import Mathlib

/-!
Verification of the event-analysis logic of `pythia-accordion`
(`src/examples/plots.cc` and `src/examples/zplot.cc`).

Particle records are embedded with exact rational arithmetic in place of
`double`; status codes are signed integers as in the Pythia event record.
Only the analysis logic written in this repository is embedded; the Pythia
generator itself is out of scope and events are arbitrary record lists.
-/

namespace PythiaAccordion

/-- One produced particle of an event record, restricted to the fields the
analysis scripts read: signed status code, rapidity `y()`, transverse
momentum `pT()`, energy `e()`, longitudinal momentum `pz()`, mass `m()`. -/
structure Particle where
  status : Int
  y : ℚ
  pT : ℚ
  e : ℚ
  pz : ℚ
  m : ℚ
deriving DecidableEq, Repr

/-! ## Primary-hadron selection (`plots.cc` lines 74-85)

The selection loop tests the signed status: `status == 1216 || (status > 80
&& status < 90)`, and the joining tag used to route the mass fill is
`status == 1216`, again on the signed code. -/

/-- Selection predicate of `plots.cc` line 77, on the signed status code. -/
def selectsPlots (p : Particle) : Bool :=
  decide (p.status = 1216 ∨ (80 < p.status ∧ p.status < 90))

/-- A selected record together with its derived joining tag. -/
structure PrimaryHadron where
  particle : Particle
  isJoining : Bool
deriving DecidableEq, Repr

/-- The selection loop of `plots.cc` lines 74-85: a single left-to-right
scan keeping the records that satisfy `selectsPlots`, each tagged with
`status == 1216` (the tag that routes `massJoin` vs `massReg`). -/
def primarySelect : List Particle → List PrimaryHadron
  | [] => []
  | p :: rest =>
    if selectsPlots p then
      ⟨p, decide (p.status = 1216)⟩ :: primarySelect rest
    else
      primarySelect rest

/-- The spec's selection predicate, written on the magnitude `|statusCode|`
exactly as §4.2 states it: `|statusCode| == 1216` or `80 < |statusCode| < 90`.
Kept separate from `selectsPlots` so the two can be compared. -/
def selectsSpec (p : Particle) : Bool :=
  decide (p.status.natAbs = 1216 ∨ (80 < p.status.natAbs ∧ p.status.natAbs < 90))

/-- The spec's §4.2 selector, word for word: filter on `selectsSpec`, flag
`isJoining` iff `|statusCode| == 1216`. -/
def primarySelectSpec : List Particle → List PrimaryHadron
  | [] => []
  | p :: rest =>
    if selectsSpec p then
      ⟨p, decide (p.status.natAbs = 1216)⟩ :: primarySelectSpec rest
    else
      primarySelectSpec rest

/-- The particles of the selected subsequence, in order (the view through
which the spacing loop of `plots.cc` reads `event[primary[i]]`). -/
def primaryParticles (ev : List Particle) : List Particle :=
  (primarySelect ev).map PrimaryHadron.particle

/-- The `dNdy.fill(event[i].y())` calls of `plots.cc` line 79: one rapidity
per selected record, in scan order. -/
def dndyFillsPlots : List Particle → List ℚ
  | [] => []
  | p :: rest =>
    if selectsPlots p then p.y :: dndyFillsPlots rest else dndyFillsPlots rest

/-! ## Rapidity-spacing classification (`plots.cc` lines 88-101)

The loop walks adjacent pairs of the primary list.  Its branch structure is:
joining fill when either member has signed status `1216`; an empty branch
when `i == 0` (pair touches the first primary hadron); an empty branch when
`i == primary.size() - 2` (pair touches the last); a regular fill otherwise.
The empty branches are the discarded, endpoint-excluded samples. -/

/-- Bucket a spacing sample is routed to.  `joining` is a `deltayJoin.fill`,
`regular` a `deltayReg.fill`, and `excluded` one of the two empty endpoint
branches (no fill). -/
inductive Bucket where
  | joining
  | excluded
  | regular
deriving DecidableEq, Repr

/-- Branch chain of `plots.cc` lines 91-100 for the pair at positions
`(i, i+1)` of a primary list of length `k`, with `p`, `q` the two members. -/
def bucketOf (k i : Nat) (p q : Particle) : Bucket :=
  if p.status = 1216 ∨ q.status = 1216 then Bucket.joining
  else if i = 0 then Bucket.excluded
  else if i = k - 2 then Bucket.excluded
  else Bucket.regular

/-- Indexed walk over adjacent pairs: `i` is the loop counter, `k` the
length of the full primary list (`primary.size()`). -/
def spacingAux (k : Nat) : Nat → List Particle → List (ℚ × Bucket)
  | _, [] => []
  | _, [_] => []
  | i, p :: q :: rest => (p.y - q.y, bucketOf k i p q) :: spacingAux k (i + 1) (q :: rest)

/-- Spacing samples of one event's primary list (`plots.cc` lines 88-101),
in loop order: `deltay = y[i] - y[i+1]` with the bucket of `bucketOf`. -/
def spacingSamples (ps : List Particle) : List (ℚ × Bucket) :=
  spacingAux ps.length 0 ps

/-- Bucket rule as the spec's §3 words it, with the joining test on the
magnitude `|statusCode| == 1216` and the two endpoint cases merged. -/
def claimBucket (k i : Nat) (p q : Particle) : Bucket :=
  if p.status.natAbs = 1216 ∨ q.status.natAbs = 1216 then Bucket.joining
  else if i = 0 ∨ i = k - 2 then Bucket.excluded
  else Bucket.regular

/-- Loop bound `primary.size() - 1` of `plots.cc` line 88, computed in
unsigned 64-bit `size_t` arithmetic: `(k - 1) mod 2^64`. -/
def sizeTSub1 (k : Nat) : Nat := (k + (2 ^ 64 - 1)) % 2 ^ 64

/-! ## Rank / z-fraction scan (`zplot.cc` lines 97-128)

The loop keeps `pPosTot` (initially `stringMass`) and `iRank` (initially 0).
For each record: if `statusAbs() ∈ (80, 90)` and the signed `status() == 83`,
it increments `iRank`, computes `pPos = e + pz` and `zPos = pPos / pPosTot`,
fills `histZ`, routes `zPos` to `histZLast` when the *next raw record* has
`statusAbs() == 1216` and otherwise to `histZ1..histZ6` by rank plus
`histZMid` when `iRank != 1`, then subtracts `pPos` from `pPosTot`.
Every record with `statusAbs() ∈ (80, 90)` also fills `dndy` and `dpTdy`. -/

/-- Test `statusAbs() > 80 && statusAbs() < 90` of `zplot.cc` line 104. -/
def inRange8090 (p : Particle) : Bool :=
  decide (80 < p.status.natAbs ∧ p.status.natAbs < 90)

/-- A record triggers the rank branch iff it passes `inRange8090` and its
signed status is exactly `83` (`zplot.cc` line 105). -/
def isTrigger (p : Particle) : Bool :=
  inRange8090 p && decide (p.status = 83)

/-- Look-ahead `event[i+1].statusAbs() == 1216` of `zplot.cc` line 110,
expressed on the list of records that follow record `i`.  On `[]` the C++
indexes one past the end of the event record, which is undefined behavior;
the `false` returned here is an arbitrary totalization, and every theorem
about the look-ahead assumes a following record exists. -/
def nextIsJoin : List Particle → Bool
  | [] => false
  | q :: _ => decide (q.status.natAbs = 1216)

/-- Per-rank histogram routing of `zplot.cc` lines 113-118: `histZ1..histZ6`
by rank when not last, nothing for higher ranks. -/
def zRoute (isLast : Bool) (r : Nat) : Option Nat :=
  if isLast then none
  else if r = 1 then some 1
  else if r = 2 then some 2
  else if r = 3 then some 3
  else if r = 4 then some 4
  else if r = 5 then some 5
  else if r = 6 then some 6
  else none

/-- Output of one rank-branch execution: the rank taken, the filled
z-fraction, and which of the z histograms receive it (`fillLast` for
`histZLast`, `fillMid` for `histZMid`, `fillRankK` for `histZ1..histZ6`). -/
structure ZEntry where
  rank : Nat
  zPos : ℚ
  fillLast : Bool
  fillMid : Bool
  fillRankK : Option Nat
deriving DecidableEq, Repr

/-- The z-fraction slice of the event loop of `zplot.cc` lines 100-122:
`tot` is `pPosTot`, `r` is `iRank`. -/
def zScan : List Particle → ℚ → Nat → List ZEntry
  | [], _, _ => []
  | p :: rest, tot, r =>
    if inRange8090 p then
      if p.status = 83 then
        ⟨r + 1, (p.e + p.pz) / tot,
         nextIsJoin rest,
         !nextIsJoin rest && decide (r + 1 ≠ 1),
         zRoute (nextIsJoin rest) (r + 1)⟩ ::
          zScan rest (tot - (p.e + p.pz)) (r + 1)
      else zScan rest tot r
    else zScan rest tot r

/-- String CM energy of `zplot.cc` line 21 (`stringMass = 500`), the initial
value of `pPosTot` at line 98. -/
def stringMass : ℚ := 500

/-- One event's rank scan as `zplot.cc` runs it: `pPosTot` starts at
`stringMass`, `iRank` at `0`. -/
def zplotRun (ev : List Particle) : List ZEntry :=
  zScan ev stringMass 0

/-- Number of rank-branch executions among a list of records. -/
def countTrig : List Particle → Nat
  | [] => 0
  | p :: rest => (if isTrigger p then 1 else 0) + countTrig rest

/-- Forward light-cone momentum `e() + pz()` (`zplot.cc` line 107). -/
def fwd (p : Particle) : ℚ := p.e + p.pz

/-- Forward momenta of the rank-triggering records, in order. -/
def fwdList (ev : List Particle) : List ℚ :=
  (ev.filter isTrigger).map fwd

/-- Remaining-momentum recurrence on a list of forward momenta: each value
is divided by the remaining total, which then decreases by that value. -/
def zOf : List ℚ → ℚ → List ℚ
  | [], _ => []
  | a :: rest, tot => a / tot :: zOf rest (tot - a)

/-- Value of `pPosTot` after each record of the event is processed
(`zplot.cc` lines 98-121: it changes only in the `status() == 83` branch,
by `pPosTot -= pPos`). -/
def remainingTrace : List Particle → ℚ → List ℚ
  | [], _ => []
  | p :: rest, tot =>
    (if isTrigger p then tot - fwd p else tot) ::
      remainingTrace rest (if isTrigger p then tot - fwd p else tot)

/-- The `dndy.fill(y)` calls of `zplot.cc` line 124: one rapidity per record
with `statusAbs() ∈ (80, 90)`, in scan order. -/
def dndyFillsZplot : List Particle → List ℚ
  | [] => []
  | p :: rest =>
    if inRange8090 p then p.y :: dndyFillsZplot rest else dndyFillsZplot rest

/-! ## Histogram and subrun loop

The `Hist` class itself belongs to Pythia 8, not to this repository, so its
normalization is modelled from the spec.  The event-loop structure (early
`break` on generation failure, terminal normalization by the configured
event count) is that of `plots.cc` lines 56-109 and `zplot.cc` lines
82-142. -/

/-- Modelled from the spec: the Pythia 8 `Hist` class is not under `src/`;
per spec §3/§4.1 a histogram is a fixed-shape bin accumulator (the `name`
string is omitted as irrelevant to the claims). -/
structure Hist where
  nBins : Nat
  lowEdge : ℚ
  highEdge : ℚ
  bins : List ℚ
  entries : Nat
  underflow : ℚ
  overflow : ℚ
deriving DecidableEq, Repr

/-- Bin width of a histogram. -/
def Hist.binWidth (h : Hist) : ℚ := (h.highEdge - h.lowEdge) / h.nBins

/-- Modelled from the spec: Pythia 8's `Hist::normalizeSpectrum` is not
under `src/`; per spec §4.1 it divides every bin value by
`(nEvents * binWidth)`. -/
def Hist.normalizeSpectrum (h : Hist) (nEvents : Nat) : Hist :=
  { h with bins := h.bins.map fun b => b / (nEvents * h.binWidth) }

/-- Event loop from event index `i` with `n` events of budget left
(`plots.cc` lines 56-102 / `zplot.cc` lines 82-129): each iteration asks
the generator for event `i`; on failure the loop exits immediately (the
`break` of `plots.cc` line 69 / `zplot.cc` line 94), leaving the histogram
as accumulated so far; on success the event's fills are applied and the
loop continues. -/
def loopFrom (gen : Nat → Option (List Particle))
    (fillEvent : Hist → List Particle → Hist) :
    Nat → Nat → Hist → Hist
  | _, 0, h => h
  | i, n + 1, h =>
    match gen i with
    | none => h
    | some ev => loopFrom gen fillEvent (i + 1) n (fillEvent h ev)

/-- One subrun: run the event loop over the full configured budget
`nEvents`, then apply the terminal spectrum normalization with that same
configured `nEvents` (`plots.cc` line 105, `zplot.cc` lines 132-142). -/
def subrun (gen : Nat → Option (List Particle))
    (fillEvent : Hist → List Particle → Hist) (nEvents : Nat) (h0 : Hist) : Hist :=
  Hist.normalizeSpectrum (loopFrom gen fillEvent 0 nEvents h0) nEvents

/-! ## Concrete records used by counterexamples and witnesses -/

/-- A joining-step hadron (status `1216`) with forward momentum `100`. -/
def jA : Particle := ⟨1216, 1, 0, 60, 40, 1⟩

/-- A joining-step hadron (status `1216`) with forward momentum `150`. -/
def jB : Particle := ⟨1216, 2, 0, 100, 50, 1⟩

/-- A joining-step hadron (status `1216`) with forward momentum `250`. -/
def jC : Particle := ⟨1216, 3, 0, 150, 100, 1⟩

/-- A rank-triggering hadron (signed status `83`) with forward momentum `100`. -/
def hA : Particle := ⟨83, 1, 0, 60, 40, 1⟩

/-- A rank-triggering hadron (signed status `83`) with forward momentum `150`. -/
def hB : Particle := ⟨83, 2, 0, 100, 50, 1⟩

/-- A rank-triggering hadron (signed status `83`) with forward momentum `250`. -/
def hC : Particle := ⟨83, 3, 0, 150, 100, 1⟩

/-- A record with status `-1216`: magnitude `1216`, negative sign. -/
def pNeg : Particle := ⟨-1216, 1, 0, 60, 40, 1⟩

/-- Records with statuses `83`, `1216`, `91`, `84` for the §8 selector
test vector. -/
def r83 : Particle := ⟨83, 1, 0, 60, 40, 1⟩

/-- Status `1216` member of the §8 test vector. -/
def r1216 : Particle := ⟨1216, 2, 0, 100, 50, 1⟩

/-- Status `91` member of the §8 test vector. -/
def r91 : Particle := ⟨91, 3, 0, 10, 5, 1⟩

/-- Status `84` member of the §8 test vector. -/
def r84 : Particle := ⟨84, 4, 0, 20, 10, 1⟩

/-- First of four non-joining primary hadrons (status `83`). -/
def pA : Particle := ⟨83, 4, 0, 60, 40, 1⟩

/-- Second of four non-joining primary hadrons (status `84`). -/
def pB : Particle := ⟨84, 3, 0, 50, 30, 1⟩

/-- Third of four non-joining primary hadrons (status `83`). -/
def pC : Particle := ⟨83, 2, 0, 40, 20, 1⟩

/-- Fourth of four non-joining primary hadrons (status `84`). -/
def pD : Particle := ⟨84, 1, 0, 30, 10, 1⟩

/-- Four-hadron primary list `[A, B, C, D]`, none joining (statuses `83`
and `84`, all selected by `plots.cc`), with distinct rapidities. -/
def evABCD : List Particle := [pA, pB, pC, pD]

/-! ## Helper lemmas -/

/-- The selection scan keeps exactly the records passing `selectsPlots`,
as an order-preserving filter. -/
lemma primarySelect_map_filter (ev : List Particle) :
    (primarySelect ev).map PrimaryHadron.particle = ev.filter selectsPlots := by
  induction ev with
  | nil => rfl
  | cons p rest ih =>
    by_cases hp : selectsPlots p
    · simp [primarySelect, hp, List.filter_cons, ih]
    · simp [primarySelect, hp, List.filter_cons, ih]

/-- Every selected record's tag is the signed test `status == 1216`. -/
lemma primarySelect_flag (ev : List Particle) :
    ∀ ph ∈ primarySelect ev, ph.isJoining = decide (ph.particle.status = 1216) := by
  induction ev with
  | nil => intro ph h; simp [primarySelect] at h
  | cons p rest ih =>
    intro ph h
    by_cases hp : selectsPlots p
    · simp only [primarySelect, if_pos hp, List.mem_cons] at h
      rcases h with h | h
      · subst h; rfl
      · exact ih ph h
    · simp only [primarySelect, if_neg hp] at h
      exact ih ph h

/-- Members of the selected list pass the selection predicate. -/
lemma mem_primaryParticles {ev : List Particle} {p : Particle}
    (hp : p ∈ primaryParticles ev) : selectsPlots p = true := by
  rw [primaryParticles, primarySelect_map_filter] at hp
  exact (List.mem_filter.mp hp).2

/-- On selected records the signed joining test and the magnitude joining
test agree: a selected status is either exactly `1216` or lies in
`(80, 90)`, where the magnitude cannot be `1216`. -/
lemma selected_abs_iff {p : Particle} (hp : selectsPlots p = true) :
    p.status.natAbs = 1216 ↔ p.status = 1216 := by
  simp only [selectsPlots, decide_eq_true_eq] at hp
  omega

/-- On selected pair members the source's bucket chain agrees with the
spec-§3 bucket rule stated on status magnitudes. -/
lemma bucketOf_eq_claimBucket {p q : Particle} (k i : Nat)
    (hp : selectsPlots p = true) (hq : selectsPlots q = true) :
    bucketOf k i p q = claimBucket k i p q := by
  have e1 := selected_abs_iff hp
  have e2 := selected_abs_iff hq
  by_cases hj : p.status = 1216 ∨ q.status = 1216
  · have hj' : p.status.natAbs = 1216 ∨ q.status.natAbs = 1216 := by
      rcases hj with h | h
      · exact Or.inl (e1.mpr h)
      · exact Or.inr (e2.mpr h)
    simp [bucketOf, claimBucket, hj, hj']
  · have hj' : ¬(p.status.natAbs = 1216 ∨ q.status.natAbs = 1216) := by
      rcases Classical.em (p.status.natAbs = 1216) with h | h
      · exact absurd (Or.inl (e1.mp h)) hj
      · rcases Classical.em (q.status.natAbs = 1216) with h' | h'
        · exact absurd (Or.inr (e2.mp h')) hj
        · tauto
    by_cases h0 : i = 0
    · simp [bucketOf, claimBucket, hj, hj', h0]
    · by_cases hk2 : i = k - 2
      · simp [bucketOf, claimBucket, hj, hj', h0, hk2]
      · simp [bucketOf, claimBucket, hj, hj', h0, hk2]

/-- The plots `dNdy` fills are the rapidities of the selected records. -/
lemma dndyFillsPlots_eq (ev : List Particle) :
    dndyFillsPlots ev = (ev.filter selectsPlots).map Particle.y := by
  induction ev with
  | nil => rfl
  | cons p rest ih =>
    by_cases hp : selectsPlots p
    · simp [dndyFillsPlots, hp, List.filter_cons, ih]
    · simp [dndyFillsPlots, hp, List.filter_cons, ih]

/-- The zplot `dndy` fills are the rapidities of the records with status
magnitude in `(80, 90)`. -/
lemma dndyFillsZplot_eq (ev : List Particle) :
    dndyFillsZplot ev = (ev.filter inRange8090).map Particle.y := by
  induction ev with
  | nil => rfl
  | cons p rest ih =>
    by_cases hp : inRange8090 p
    · simp [dndyFillsZplot, hp, List.filter_cons, ih]
    · simp [dndyFillsZplot, hp, List.filter_cons, ih]

/-! ## Claim C1 -/

/-- C1, counterexample: a record with status `-1216` has magnitude `1216`,
so the claim requires it to be selected with `isJoining = true`, but the
selection of `plots.cc` tests the signed status and drops it. -/
theorem primarySelect_neg1216_not_selected :
    primarySelect [pNeg] = [] ∧ selectsSpec pNeg = true := by decide

/-- C1 (amended): the primary-hadron selection returns exactly the ordered
subsequence of records whose *signed* status code satisfies
`statusCode == 1216` or `80 < statusCode < 90`, preserving the original
order, with each selected record's `isJoining` flag true iff the signed
`statusCode == 1216`; records failing the signed test (including those
with negative codes of magnitude `1216` or in `(80, 90)`) are not
selected. -/
theorem primarySelect_signed_characterization (ev : List Particle) :
    (primarySelect ev).map PrimaryHadron.particle = ev.filter selectsPlots ∧
    ∀ ph ∈ primarySelect ev, ph.isJoining = decide (ph.particle.status = 1216) :=
  ⟨primarySelect_map_filter ev, primarySelect_flag ev⟩

/-- C1, witness: the amended characterization applied to the §8 test
vector, instantiated at its joining member. -/
theorem primarySelect_signed_characterization_inst :
    (⟨r1216, true⟩ : PrimaryHadron).isJoining =
      decide ((⟨r1216, true⟩ : PrimaryHadron).particle.status = 1216) :=
  (primarySelect_signed_characterization [r83, r1216, r91, r84]).2
    ⟨r1216, true⟩ (by decide)

/-! ## Claim C9 -/

/-- C9, counterexample: a joining record (status `1216`) is a primary
hadron in the claim's sense, yet `zplot.cc` fills `dndy` only inside the
`statusAbs() ∈ (80, 90)` branch, so such a record gets no rapidity fill. -/
theorem dndy_zplot_skips_joining :
    dndyFillsZplot [jA] = [] ∧ selectsSpec jA = true := by decide

/-- C9 (amended): in `plots.cc` every selected record (signed status
`1216` or in `(80, 90)`) contributes exactly one rapidity fill to `dNdy`,
in order; in `zplot.cc` only records with status magnitude in `(80, 90)`
contribute a `dndy` fill, and joining records (magnitude `1216`)
contribute none. -/
theorem dndy_fill_characterization (ev : List Particle) :
    dndyFillsPlots ev = (ev.filter selectsPlots).map Particle.y ∧
    dndyFillsZplot ev = (ev.filter inRange8090).map Particle.y :=
  ⟨dndyFillsPlots_eq ev, dndyFillsZplot_eq ev⟩

/-! ## Claim C10 -/

/-- C10, counterexample: status `91` is outside `(80, 90)` and is not
`1216`, so the third record of the §8 test vector is *not* selected,
contradicting the claim that all four records are returned. -/
theorem primarySelect_test_vector_drops_91 :
    r91 ∉ (primarySelect [r83, r1216, r91, r84]).map PrimaryHadron.particle := by
  decide

/-- C10 (amended): the selection applied to records with status codes
`[83, 1216, 91, 84]` returns the first, second and fourth records, in
order, flagging only the `1216` record as joining; the status-`91` record
is not selected. -/
theorem primarySelect_test_vector :
    primarySelect [r83, r1216, r91, r84] =
      [⟨r83, false⟩, ⟨r1216, true⟩, ⟨r84, false⟩] := by
  decide

/-! ## Rank-scan lemmas -/

/-- A record that does not trigger the rank branch leaves the scan state
untouched: no entry, same `pPosTot`, same `iRank`. -/
lemma zScan_skip {p : Particle} (rest : List Particle) (tot : ℚ) (r : Nat)
    (hp : isTrigger p = false) : zScan (p :: rest) tot r = zScan rest tot r := by
  by_cases h1 : inRange8090 p
  · have h2 : ¬ p.status = 83 := by
      intro h2
      simp [isTrigger, h1, h2] at hp
    simp [zScan, h1, h2]
  · simp [zScan, h1]

/-- The ranks emitted by the scan are the consecutive integers starting one
above the incoming `iRank`, one per rank-triggering record. -/
lemma zScan_map_rank (ev : List Particle) :
    ∀ tot r, (zScan ev tot r).map ZEntry.rank = List.range' (r + 1) (countTrig ev) := by
  induction ev with
  | nil => intro tot r; simp [zScan, countTrig]
  | cons p rest ih =>
    intro tot r
    by_cases h1 : inRange8090 p
    · by_cases h2 : p.status = 83
      · have ht : isTrigger p = true := by simp [isTrigger, h1, h2]
        simp only [zScan, h1, if_true, h2, List.map_cons, countTrig, ht,
          Nat.add_comm 1 (countTrig rest), List.range'_succ]
        simp [ih]
      · have ht : isTrigger p = false := by simp [isTrigger, h2]
        simp only [zScan, h1, if_true, h2, if_false, countTrig, ht]
        simp [ih]
    · have ht : isTrigger p = false := by simp [isTrigger, h1]
      simp only [zScan, h1, if_false, countTrig, ht]
      simp [ih]

/-- The z-fractions emitted by the scan follow the remaining-momentum
recurrence over the forward momenta of the rank-triggering records:
each is divided by the remaining total before being subtracted from it. -/
lemma zScan_map_zPos (ev : List Particle) :
    ∀ tot r, (zScan ev tot r).map ZEntry.zPos = zOf (fwdList ev) tot := by
  induction ev with
  | nil => intro tot r; simp [zScan, fwdList, zOf]
  | cons p rest ih =>
    intro tot r
    by_cases h1 : inRange8090 p
    · by_cases h2 : p.status = 83
      · have ht : isTrigger p = true := by simp [isTrigger, h1, h2]
        simp [zScan, h1, h2, fwdList, List.filter_cons, ht, zOf, fwd, ih]
      · have ht : isTrigger p = false := by simp [isTrigger, h2]
        simp [zScan, h1, h2, fwdList, List.filter_cons, ht, ih]
    · have ht : isTrigger p = false := by simp [isTrigger, h1]
      simp [zScan, h1, fwdList, List.filter_cons, ht, ih]

/-! ## Claim C2 -/

/-- C2, counterexample: the record with signed status `83` is not a
joining-step hadron (its magnitude is not `1216`), yet the scan assigns it
rank `1`; so ranks are not assigned only to joining-step hadrons. -/
theorem zScan_ranks_nonjoining_hadron :
    (zplotRun [hA]).map ZEntry.rank = [1] ∧ hA.status.natAbs ≠ 1216 := by decide

/-- C2 (amended): for every event, a rank is assigned only to records with
*signed status exactly `83`*, starting at 1 and incrementing only on such
records in production order; for each of them `zFraction` is the forward
momentum `e + pz` divided by `remaining`, after which `remaining` is
decremented by that forward momentum; all other records — including
joining-step records of status magnitude `1216` — receive no rank, no
z-fraction fill, and leave the remaining-momentum accumulator and the rank
counter unchanged. -/
theorem zScan_rank_zfraction_on_status83 (ev : List Particle) (tot : ℚ) (r : Nat) :
    ((zScan ev tot r).map ZEntry.rank = List.range' (r + 1) (countTrig ev)) ∧
    ((zScan ev tot r).map ZEntry.zPos = zOf (fwdList ev) tot) ∧
    ∀ p, isTrigger p = false → zScan (p :: ev) tot r = zScan ev tot r :=
  ⟨zScan_map_rank ev tot r, zScan_map_zPos ev tot r,
    fun _ hp => zScan_skip ev tot r hp⟩

/-- C2, witness: a joining-step record (status `1216`) prepended to an
event leaves the scan unchanged. -/
theorem zScan_rank_zfraction_on_status83_inst :
    zScan (jA :: [hA]) stringMass 0 = zScan [hA] stringMass 0 :=
  (zScan_rank_zfraction_on_status83 [hA] stringMass 0).2.2 jA (by decide)

/-! ## Claim C3 -/

/-- C3, counterexample: three joining-step hadrons (status `1216`) with
forward momenta `[100, 150, 250]` produce *no* ranked entries at all — the
rank branch of `zplot.cc` requires signed status `83`, which a status
`1216` record never has — so they do not yield ranks `1, 2, 3`. -/
theorem rankTracker_joining_hadrons_unranked :
    (zplotRun [jA, jB, jC]).map ZEntry.rank ≠ [1, 2, 3] := by decide

/-- C3 (amended): the recurrence starts the remaining-momentum accumulator
at the string energy `stringMass = 500`, and on three *rank-triggering*
(signed status `83`) hadrons with forward light-cone momenta
`[100, 150, 250]` it yields ranks `1, 2, 3` and z-fractions
`100/500 = 1/5`, `150/400 = 3/8` and `250/250 = 1`: each z-fraction is
computed against the remaining momentum before that hadron's own momentum
is subtracted. -/
theorem rankTracker_example_on_status83 :
    (zplotRun [hA, hB, hC]).map ZEntry.rank = [1, 2, 3] ∧
    (zplotRun [hA, hB, hC]).map ZEntry.zPos = [1 / 5, 3 / 8, 1] := by
  constructor
  · decide
  · simp [zplotRun, zScan, stringMass, hA, hB, hC, inRange8090, nextIsJoin, zRoute]
    norm_num

/-! ## Remaining-momentum trace lemmas -/

/-- Step characterization of the trace: reading `init :: remainingTrace ev
init` at position `i` as the accumulator value before record `i`, the value
after record `i` subtracts the forward momentum exactly when the record
triggers the rank branch, and is unchanged otherwise. -/
lemma remainingTrace_step (ev : List Particle) :
    ∀ (init : ℚ) (i : Nat) (p : Particle) (a : ℚ), ev.get? i = some p →
      (init :: remainingTrace ev init).get? i = some a →
      (remainingTrace ev init).get? i =
        some (if isTrigger p then a - fwd p else a) := by
  induction ev with
  | nil => intro init i p a hp _; simp at hp
  | cons x rest ih =>
    intro init i p a hp ha
    cases i with
    | zero =>
      simp only [List.get?_cons_zero, Option.some.injEq] at hp ha
      subst hp; subst ha
      rfl
    | succ j =>
      simp only [List.get?_cons_succ] at hp ha
      simpa only [remainingTrace, List.get?_cons_succ] using
        ih (if isTrigger x then init - fwd x else init) j p a hp
          (by simpa only [remainingTrace] using ha)

/-- When every record's forward momentum is nonnegative, the trace headed
by its initial value is nonincreasing. -/
lemma remainingTrace_chain (ev : List Particle) :
    ∀ init : ℚ, (∀ p ∈ ev, 0 ≤ fwd p) →
      List.Chain' (fun a b => b ≤ a) (init :: remainingTrace ev init) := by
  induction ev with
  | nil => intro init _; simp [remainingTrace]
  | cons x rest ih =>
    intro init h
    have hx : 0 ≤ fwd x := h x (List.mem_cons_self x rest)
    have hstep : (if isTrigger x then init - fwd x else init) ≤ init := by
      by_cases ht : isTrigger x
      · simp only [ht, if_true]
        linarith
      · simp [ht]
    simp only [remainingTrace, List.chain'_cons]
    exact ⟨hstep, ih _ (fun p hp => h p (List.mem_cons_of_mem x hp))⟩

/-! ## Claim C7 -/

/-- C7, counterexample: a record with signed status `83` — not a
joining-step hadron, its magnitude is not `1216` — decrements the
remaining-momentum accumulator by its forward momentum `100`, while a
joining-step record of status `1216` leaves the accumulator unchanged;
so the accumulator does not change only on joining-step hadrons. -/
theorem remaining_changed_by_nonjoining :
    remainingTrace [hA] stringMass = [400] ∧ hA.status.natAbs ≠ 1216 ∧
    remainingTrace [jA] stringMass = [stringMass] ∧ jA.status.natAbs = 1216 := by
  refine ⟨?_, by decide, ?_, by decide⟩
  · simp [remainingTrace, isTrigger, inRange8090, hA, fwd, stringMass]
    norm_num
  · simp [remainingTrace, isTrigger, inRange8090, jA]

/-- C7 (amended): within one event the remaining-momentum accumulator
starts at the full string energy `stringMass` and — provided every record's
forward momentum `e + pz` is nonnegative — never increases; it changes
exactly at records with signed status `83`, by subtraction of that
record's forward momentum, and is unchanged by every other record
(including joining-step records of magnitude `1216`); it is never reset
before the scan completes. -/
theorem remaining_monotone_status83_steps (ev : List Particle)
    (hpos : ∀ p ∈ ev, 0 ≤ fwd p) :
    List.Chain' (fun a b => b ≤ a) (stringMass :: remainingTrace ev stringMass) ∧
    ∀ (i : Nat) (p : Particle) (a : ℚ), ev.get? i = some p →
      (stringMass :: remainingTrace ev stringMass).get? i = some a →
      (remainingTrace ev stringMass).get? i =
        some (if isTrigger p then a - fwd p else a) :=
  ⟨remainingTrace_chain ev stringMass hpos,
    fun i p a hp ha => remainingTrace_step ev stringMass i p a hp ha⟩

/-- C7, witness: the step characterization applied to the two-record event
`[hA, jA]` at its first record. -/
theorem remaining_monotone_status83_steps_inst :
    (remainingTrace [hA, jA] stringMass).get? 0 =
      some (if isTrigger hA then stringMass - fwd hA else stringMass) :=
  (remaining_monotone_status83_steps [hA, jA]
      (by intro p hp; fin_cases hp <;> norm_num [fwd, hA, jA])).2
    0 hA stringMass (by decide) (by decide)

/-! ## Spacing lemmas -/

/-- The pairwise walk emits one sample per adjacent pair. -/
lemma spacingAux_length (k : Nat) (ps : List Particle) :
    ∀ i, (spacingAux k i ps).length = ps.length - 1 := by
  induction ps with
  | nil => intro i; rfl
  | cons p rest ih =>
    intro i
    cases rest with
    | nil => rfl
    | cons q rest' =>
      simp only [spacingAux, List.length_cons]
      rw [ih (i + 1)]
      simp

/-- Sample `j` of the walk pairs positions `j` and `j + 1` of the list and
carries the bucket of the shifted loop counter. -/
lemma spacingAux_get (k : Nat) (ps : List Particle) :
    ∀ (i j : Nat) (p q : Particle), ps.get? j = some p → ps.get? (j + 1) = some q →
      (spacingAux k i ps).get? j = some (p.y - q.y, bucketOf k (i + j) p q) := by
  induction ps with
  | nil => intro i j p q hp _; simp at hp
  | cons x rest ih =>
    intro i j p q hp hq
    cases rest with
    | nil =>
      rcases j with _ | j <;> simp at hq
    | cons y rest' =>
      cases j with
      | zero =>
        simp only [List.get?_cons_zero, Option.some.injEq] at hp
        simp only [List.get?_cons_succ, List.get?_cons_zero, Option.some.injEq] at hq
        subst hp; subst hq
        rfl
      | succ m =>
        simp only [List.get?_cons_succ] at hp hq
        have := ih (i + 1) m p q hp hq
        have harith : i + 1 + m = i + (m + 1) := by omega
        rw [harith] at this
        simpa only [spacingAux, List.get?_cons_succ] using this

/-! ## Claim C4 -/

/-- C4: for a primary list of length `k ≥ 2` the spacing loop produces one
sample per adjacent pair, with `deltaY = y[i] - y[i+1]`, bucketed `joining`
when either member of the pair is a joining-step hadron (status magnitude
`1216`), `excluded` (the empty, unhistogrammed branches) when the pair
touches the first or last primary position, and `regular` otherwise; in
particular on the four-hadron primary list `[A, B, C, D]` with none joining
the buckets are `[excluded, regular, excluded]`. -/
theorem spacing_bucket_characterization (ev : List Particle)
    (_hk : 2 ≤ (primaryParticles ev).length) :
    (spacingSamples (primaryParticles ev)).length = (primaryParticles ev).length - 1 ∧
    (∀ (i : Nat) (p q : Particle),
      (primaryParticles ev).get? i = some p →
      (primaryParticles ev).get? (i + 1) = some q →
      (spacingSamples (primaryParticles ev)).get? i =
        some (p.y - q.y, claimBucket (primaryParticles ev).length i p q)) ∧
    (spacingSamples (primaryParticles evABCD)).map Prod.snd =
      [Bucket.excluded, Bucket.regular, Bucket.excluded] := by
  refine ⟨spacingAux_length _ _ 0, ?_, by decide⟩
  intro i p q hp hq
  have h := spacingAux_get (primaryParticles ev).length (primaryParticles ev) 0 i p q hp hq
  rw [Nat.zero_add] at h
  rw [spacingSamples, h,
    bucketOf_eq_claimBucket _ _ (mem_primaryParticles (List.get?_mem hp))
      (mem_primaryParticles (List.get?_mem hq))]

/-- C4, witness: applied to the event `[A, B, C, D]` (statuses `83/84`,
none joining) at the middle pair, which is bucketed `regular`. -/
theorem spacing_bucket_characterization_inst :
    (spacingSamples (primaryParticles evABCD)).get? 1 =
      some (pB.y - pC.y, claimBucket (primaryParticles evABCD).length 1 pB pC) :=
  (spacing_bucket_characterization evABCD (by decide)).2.1 1 pB pC
    (by decide) (by decide)

/-! ## Claim C5 -/

/-- C5: the spec is right that a primary list with fewer than two entries
must yield zero samples with an in-bounds scan, but the source computes the
loop bound `primary.size() - 1` in unsigned `size_t` arithmetic; on an
empty primary list the bound underflows to `2^64 - 1`, the loop body runs,
and its first read `primary[0]` is already out of bounds of the empty
vector (undefined behavior).  With one primary hadron the bound is `0` and
the loop correctly runs zero iterations. -/
theorem spacing_loop_bound_underflows_on_empty :
    sizeTSub1 0 = 2 ^ 64 - 1 ∧ 0 < sizeTSub1 0 ∧
    ([] : List Particle).get? 0 = none ∧ sizeTSub1 1 = 0 := by
  refine ⟨by norm_num [sizeTSub1], by norm_num [sizeTSub1], rfl, by norm_num [sizeTSub1]⟩

/-! ## Routing lemmas -/

/-- The `histZ1..histZ6` else-if chain routes to the per-rank histogram
exactly for ranks up to the cap of six. -/
lemma zRoute_eq (b : Bool) (n : Nat) :
    zRoute b (n + 1) = if b = true then none
      else if n + 1 ≤ 6 then some (n + 1) else none := by
  cases b with
  | true => simp [zRoute]
  | false =>
    rcases n with _ | _ | _ | _ | _ | _ | m <;> simp [zRoute]

/-! ## Claim C6 -/

/-- C6: a ranked hadron's z-fraction is routed to the last-rank histogram
iff the record immediately following it in the original, unfiltered event
sequence has status magnitude `1216` (raw-record adjacency); otherwise it
goes to the per-rank histogram matching its rank for ranks `1..6` (ranks
above the cap go to no per-rank histogram) and additionally to the
mid-rank aggregate whenever its rank is not `1`.  The entry is located in
the scan output by counting the rank-triggering records before it. -/
theorem zfraction_routing_raw_lookahead (ev : List Particle) (tot : ℚ)
    (r i : Nat) (p q : Particle) (hp : ev.get? i = some p)
    (ht : isTrigger p = true) (hq : ev.get? (i + 1) = some q) :
    ∃ e : ZEntry, (zScan ev tot r).get? (countTrig (ev.take i)) = some e ∧
      1 ≤ e.rank ∧
      e.fillLast = decide (q.status.natAbs = 1216) ∧
      e.fillMid = (!e.fillLast && decide (e.rank ≠ 1)) ∧
      e.fillRankK = if e.fillLast = true then none
        else if e.rank ≤ 6 then some e.rank else none := by
  induction ev generalizing tot r i with
  | nil => simp at hp
  | cons x rest ih =>
    have hx12 : isTrigger x = true → (inRange8090 x = true ∧ x.status = 83) := by
      intro h
      simpa [isTrigger, Bool.and_eq_true, decide_eq_true_eq] using h
    cases i with
    | zero =>
      simp only [List.get?_cons_zero, Option.some.injEq] at hp
      subst hp
      obtain ⟨h1, h2⟩ := hx12 ht
      cases rest with
      | nil => simp at hq
      | cons y rest' =>
        simp only [List.get?_cons_succ, List.get?_cons_zero, Option.some.injEq] at hq
        subst hq
        refine ⟨⟨r + 1, (x.e + x.pz) / tot, nextIsJoin (y :: rest'),
          !nextIsJoin (y :: rest') && decide (r + 1 ≠ 1),
          zRoute (nextIsJoin (y :: rest')) (r + 1)⟩, ?_, ?_, ?_, ?_, ?_⟩
        · simp [zScan, h1, h2, countTrig]
        · simp
        · simp [nextIsJoin]
        · rfl
        · exact zRoute_eq (nextIsJoin (y :: rest')) r
    | succ j =>
      simp only [List.get?_cons_succ] at hp hq
      by_cases htx : isTrigger x = true
      · obtain ⟨h1, h2⟩ := hx12 htx
        obtain ⟨e, he, hrest⟩ := ih (tot - (x.e + x.pz)) (r + 1) j hp hq
        refine ⟨e, ?_, hrest⟩
        have hscan : zScan (x :: rest) tot r =
            (⟨r + 1, (x.e + x.pz) / tot, nextIsJoin rest,
              !nextIsJoin rest && decide (r + 1 ≠ 1),
              zRoute (nextIsJoin rest) (r + 1)⟩ : ZEntry) ::
              zScan rest (tot - (x.e + x.pz)) (r + 1) := by
          simp [zScan, h1, h2]
        have hcount : countTrig ((x :: rest).take (j + 1)) =
            countTrig (rest.take j) + 1 := by
          simp [List.take_succ_cons, countTrig, htx, Nat.add_comm]
        rw [hcount, hscan, List.get?_cons_succ]
        exact he
      · have htx' : isTrigger x = false := by simpa using htx
        obtain ⟨e, he, hrest⟩ := ih tot r j hp hq
        refine ⟨e, ?_, hrest⟩
        have hcount : countTrig ((x :: rest).take (j + 1)) =
            countTrig (rest.take j) := by
          simp [List.take_succ_cons, countTrig, htx']
        rw [hcount, zScan_skip rest tot r htx']
        exact he

/-- C6, witness: in the event `[hA, jA]` the ranked first record is
followed by a raw record of status magnitude `1216`, so its fill is routed
to the last-rank histogram. -/
theorem zfraction_routing_raw_lookahead_inst :
    ∃ e : ZEntry, (zScan [hA, jA] stringMass 0).get? (countTrig ([hA, jA].take 0)) = some e ∧
      1 ≤ e.rank ∧
      e.fillLast = decide (jA.status.natAbs = 1216) ∧
      e.fillMid = (!e.fillLast && decide (e.rank ≠ 1)) ∧
      e.fillRankK = if e.fillLast = true then none
        else if e.rank ≤ 6 then some e.rank else none :=
  zfraction_routing_raw_lookahead [hA, jA] stringMass 0 0 hA jA rfl (by decide) rfl

/-! ## Claim C8 -/

/-- If the generator fails at relative offset `j` of the budget and
succeeds before it, the loop result is what the first `j` iterations
accumulated: the early `break` drops the remaining budget but keeps the
partial histogram contents. -/
lemma loopFrom_stop (gen : Nat → Option (List Particle))
    (fillEvent : Hist → List Particle → Hist) :
    ∀ (j s n : Nat) (h : Hist), j ≤ n → gen (s + j) = none →
      (∀ l, l < j → (gen (s + l)).isSome) →
      loopFrom gen fillEvent s n h = loopFrom gen fillEvent s j h := by
  intro j
  induction j with
  | zero =>
    intro s n h _ hfail _
    cases n with
    | zero => rfl
    | succ n' =>
      simp only [Nat.add_zero] at hfail
      simp [loopFrom, hfail]
  | succ m ih =>
    intro s n h hle hfail hok
    cases n with
    | zero => omega
    | succ n' =>
      have h0 : (gen s).isSome := by simpa using hok 0 (by omega)
      obtain ⟨ev, hev⟩ := Option.isSome_iff_exists.mp h0
      simp only [loopFrom, hev]
      exact ih (s + 1) n' (fillEvent h ev) (by omega)
        (by rw [show s + 1 + m = s + (m + 1) by omega]; exact hfail)
        (fun l hl => by
          rw [show s + 1 + l = s + (l + 1) by omega]
          exact hok (l + 1) (by omega))

/-- C8: when event generation fails at event `j` within the configured
budget, the event loop terminates early, the histogram contents
accumulated over the `j` successful events are preserved (not cleared),
and the terminal spectrum normalization is still applied — dividing by the
originally configured event count `nEvents`, not by the number `j` of
events actually generated. -/
theorem subrun_failure_preserves_and_normalizes
    (gen : Nat → Option (List Particle)) (fillEvent : Hist → List Particle → Hist)
    (nEvents : Nat) (h0 : Hist) (j : Nat) (hj : j < nEvents)
    (hfail : gen j = none) (hok : ∀ l, l < j → (gen l).isSome) :
    subrun gen fillEvent nEvents h0 =
      Hist.normalizeSpectrum (loopFrom gen fillEvent 0 j h0) nEvents := by
  unfold subrun
  rw [loopFrom_stop gen fillEvent j 0 nEvents h0 hj.le (by simpa using hfail)
    (by simpa using hok)]

/-- C8, witness: a generator succeeding once then failing, with a budget of
three events: the subrun result is the one-event accumulation normalized
by the configured three. -/
theorem subrun_failure_preserves_and_normalizes_inst :
    subrun (fun i => if i = 0 then some [] else none) (fun h _ => h) 3
        ⟨100, -10, 10, [], 0, 0, 0⟩ =
      Hist.normalizeSpectrum
        (loopFrom (fun i => if i = 0 then some [] else none) (fun h _ => h) 0 1
          ⟨100, -10, 10, [], 0, 0, 0⟩) 3 :=
  subrun_failure_preserves_and_normalizes _ _ 3 _ 1 (by norm_num) rfl (by decide)

end PythiaAccordion
